import Mathlib

/-!
Shallow embedding of the Text-Summarization-using-Python repository.

Source files embedded here:
- `src/preprocessing/text_cleaning.py` (`basic_clean`, `normalize_whitespace`)
- `src/summarizers/extractive.py` (`_build_similarity_matrix`,
  `centroid_extractive_summary`, `textrank_extractive_summary`)
- `src/summarizers/abstractive.py` (`_chunk_text`, `abstractive_summary`)
- `src/utils/evaluation.py` (`compute_rouge`)

External collaborators (NLTK sentence splitter, the sentence-embedding model,
networkx pagerank, the HuggingFace generation pipeline, the `rouge_score`
per-pair scorer) are modelled as function parameters or, where a claim needs
their behavior, modelled from the spec; each such spot is documented at the
definition.

Real-valued (float) quantities are modelled over `ℚ` so that every definition
is executable and decidable on concrete inputs.
-/

/-- Character class of the regex `[\x00-\x08\x0b\x0c\x0e-\x1f\x7f]` in
`basic_clean` (text_cleaning.py line 31): ASCII control characters that get
replaced by a space. -/
def isCtrl (c : Char) : Bool :=
  (c.toNat ≤ 0x08) || (c.toNat == 0x0b) || (c.toNat == 0x0c) ||
  (0x0e ≤ c.toNat && c.toNat ≤ 0x1f) || (c.toNat == 0x7f)

/-- Python's whitespace class: what `\s` matches on `str` and what `str.strip()`
removes (ASCII whitespace plus the Unicode whitespace code points). -/
def isPySpace (c : Char) : Bool :=
  (c == ' ') || (c == '\t') || (c == '\n') || (c == '\r') ||
  (c.toNat == 0x0b) || (c.toNat == 0x0c) ||
  (0x1c ≤ c.toNat && c.toNat ≤ 0x1f) ||
  (c.toNat == 0x85) || (c.toNat == 0xa0) || (c.toNat == 0x1680) ||
  (0x2000 ≤ c.toNat && c.toNat ≤ 0x200a) ||
  (c.toNat == 0x2028) || (c.toNat == 0x2029) ||
  (c.toNat == 0x202f) || (c.toNat == 0x205f) || (c.toNat == 0x3000)

/-- The substitution `re.sub(r"[\x00-\x08\x0b\x0c\x0e-\x1f\x7f]", " ", text)`
applied to one character (text_cleaning.py line 31). -/
def replaceCtrl (c : Char) : Char :=
  if isCtrl c then ' ' else c

/-- Embedding of `re.sub(r"\s+", " ", text)` (text_cleaning.py line 21): every maximal run
of whitespace becomes a single ASCII space.  The boolean flag records whether
the previous character belonged to a whitespace run. -/
def collapseAux : Bool → List Char → List Char
  | _, [] => []
  | prevSpace, c :: cs =>
    if isPySpace c then
      if prevSpace then collapseAux true cs
      else ' ' :: collapseAux true cs
    else c :: collapseAux false cs

/-- Python `str.strip()`: drop leading and trailing whitespace. -/
def stripChars (l : List Char) : List Char :=
  (l.dropWhile isPySpace).rdropWhile isPySpace

/-- Embedding of `normalize_whitespace` (text_cleaning.py lines 20-22) on character lists. -/
def normalize_whitespace (l : List Char) : List Char :=
  stripChars (collapseAux false l)

/-- Embedding of `basic_clean` (text_cleaning.py lines 25-33) on character lists:
replace control characters by spaces, then normalize whitespace. -/
def basicCleanL (l : List Char) : List Char :=
  normalize_whitespace (l.map replaceCtrl)

/-- The `basic_clean` function on `String`. -/
def basic_clean (s : String) : String :=
  String.mk (basicCleanL s.data)

/-- The `ExtractiveSummaryResult` dataclass (extractive.py lines 23-28).
Scores are modelled over `ℚ`. -/
structure ExtractiveSummaryResult where
  summary : String
  selected_sentences : List String
  indices : List Nat
  scores : List ℚ
deriving DecidableEq

/-- The empty result returned on the empty-sentence short-circuit
(extractive.py lines 53-54 and 91-92). -/
def emptyResult : ExtractiveSummaryResult :=
  { summary := "", selected_sentences := [], indices := [], scores := [] }

/-- Python list slice `xs[:k]` for an `int` bound `k`, including the
negative-index semantics: `xs[:k]` with `k < 0` keeps the first
`len(xs) + k` elements (clamped at zero). -/
def pySliceTo (k : Int) (xs : List α) : List α :=
  if 0 ≤ k then xs.take k.toNat else xs.take (xs.length - (-k).toNat)

/-- Comparison used to model `np.argsort(-scores)` (extractive.py lines 64
and 104): index `i` comes before `j` when its score is higher.  The order
among EQUAL scores is implementation-defined in the source (numpy's default
`kind=quicksort` is documented as not stable); this embedding fixes one
concrete deterministic choice (ascending index), and the theorems proved
below about the summarizers use only that the ranking is a permutation of
`0..N-1` in descending score order, never the tie order itself. -/
def scoreKey (scores : List ℚ) (i j : Nat) : Prop :=
  scores.getD j 0 < scores.getD i 0 ∨ (scores.getD i 0 = scores.getD j 0 ∧ i ≤ j)

instance scoreKeyDecidable (scores : List ℚ) : DecidableRel (scoreKey scores) :=
  fun _ _ => by unfold scoreKey; exact inferInstance

/-- Embedding of `ranked_idx = np.argsort(-scores)` (extractive.py lines 64
and 104): the indices `0..len(scores)-1` ordered by descending score.  As
noted at `scoreKey`, the source does not determine the order of tied scores,
so only tie-order-insensitive facts are proved about this definition. -/
def argsortDesc (scores : List ℚ) : List Nat :=
  List.insertionSort (scoreKey scores) (List.range scores.length)

/-- Python builtin `sorted` on a list of natural numbers
(extractive.py lines 66 and 106). -/
def pySortNat (xs : List Nat) : List Nat :=
  List.insertionSort (· ≤ ·) xs

/-- Embedding of `centroid_extractive_summary` (extractive.py lines 43-77).
The NLTK sentence splitter (`sentence_split`) and the embedding-model scoring
(lines 56-62: `model.encode`, centroid, `util.cos_sim`) are external
collaborators, passed as the parameters `split` and `centroidScores`;
everything from line 51 on is embedded directly. -/
def centroid_extractive_summary (split : String → List String)
    (centroidScores : List String → List ℚ)
    (text : String) (num_sentences : Int) : ExtractiveSummaryResult :=
  let cleaned := basic_clean text
  let sentences := split cleaned
  if sentences.isEmpty then emptyResult else
  let scores := centroidScores sentences
  let ranked_idx := argsortDesc scores
  let k : Int := min num_sentences (sentences.length : Int)
  let selected_idx := pySortNat (pySliceTo k ranked_idx)
  let selected_sentences := selected_idx.map (fun i => sentences.getD i "")
  let selected_scores := selected_idx.map (fun i => scores.getD i 0)
  { summary := String.intercalate " " selected_sentences
    selected_sentences := selected_sentences
    indices := selected_idx
    scores := selected_scores }

/-- Embedding of `textrank_extractive_summary` (extractive.py lines 80-117).
The splitter and the graph scoring (lines 94-103: similarity matrix,
`nx.from_numpy_array`, `nx.pagerank`, read out in node order `0..N-1`) are
external collaborators, passed as `split` and `pagerankScores`; the selection
logic of lines 104-117 is embedded directly. -/
def textrank_extractive_summary (split : String → List String)
    (pagerankScores : List String → List ℚ)
    (text : String) (num_sentences : Int) : ExtractiveSummaryResult :=
  let cleaned := basic_clean text
  let sentences := split cleaned
  if sentences.isEmpty then emptyResult else
  let scores := pagerankScores sentences
  let ranked_idx := argsortDesc scores
  let k : Int := min num_sentences (sentences.length : Int)
  let selected_idx := pySortNat (pySliceTo k ranked_idx)
  let selected_sentences := selected_idx.map (fun i => sentences.getD i "")
  let selected_scores := selected_idx.map (fun i => scores.getD i 0)
  { summary := String.intercalate " " selected_sentences
    selected_sentences := selected_sentences
    indices := selected_idx
    scores := selected_scores }

/-- The `1e-8` added to the norm denominator (extractive.py line 36). -/
def epsQ : ℚ := 1 / 100000000

/-- Row-normalized embeddings `normed = embeddings / norm`
(extractive.py lines 36-37).  `emb` is the matrix returned by the external
embedding model; `nrm` stands for `np.linalg.norm(embeddings, axis=1)`, which
the theorems characterize by `0 ≤ nrm i` and `nrm i ^ 2 = ∑ t, emb i t ^ 2`
(the square root is irrational in general, so it is passed as data). -/
def normedEmb {n d : Nat} (emb : Fin n → Fin d → ℚ) (nrm : Fin n → ℚ)
    (i : Fin n) (t : Fin d) : ℚ :=
  emb i t / (nrm i + epsQ)

/-- Embedding of `_build_similarity_matrix` (extractive.py lines 31-40):
`sim_matrix = np.dot(normed, normed.T)` followed by
`np.fill_diagonal(sim_matrix, 0.0)`. -/
def build_similarity_matrix {n d : Nat} (emb : Fin n → Fin d → ℚ)
    (nrm : Fin n → ℚ) (i j : Fin n) : ℚ :=
  if i = j then 0 else ∑ t, normedEmb emb nrm i t * normedEmb emb nrm j t

/-- Python string slice `text[a:b]` for `0 ≤ a ≤ b`, on character lists. -/
def pySlice (text : List Char) (a b : Nat) : List Char :=
  (text.drop a).take (b - a)

/-- The `while start < len(text)` loop of `_chunk_text`
(abstractive.py lines 46-55).  The Python loop has no built-in bound, so it is
embedded with a fuel argument; `none` means the fuel ran out before the loop
exited.  The loop body: `end = min(len(text), start + max_chars)`, append
`text[start:end]`, break when `end == len(text)`, else `start = end - overlap`. -/
def chunkLoop (text : List Char) (max_chars overlap : Nat) :
    Nat → Nat → Option (List (List Char))
  | 0, start => if start < text.length then none else some []
  | fuel + 1, start =>
    if start < text.length then
      let e := min text.length (start + max_chars)
      let chunk := pySlice text start e
      if e = text.length then some [chunk]
      else Option.map (fun rest => chunk :: rest)
        (chunkLoop text max_chars overlap fuel (e - overlap))
    else some []

/-- Embedding of `_chunk_text` (abstractive.py lines 38-55).  Fuel `text.length + 1` is
enough for the loop to exit on its own whenever `overlap < max_chars`
(proved below); `getD []` only papers over the nonterminating parameter
choices the claims exclude. -/
def chunk_text (text : List Char) (max_chars overlap : Nat) : List (List Char) :=
  if text.length ≤ max_chars then [text]
  else (chunkLoop text max_chars overlap (text.length + 1) 0).getD []

/-- The `AbstractiveSummaryResult` dataclass (abstractive.py lines 31-35),
on character lists. -/
structure AbstractiveSummaryResult where
  summary : List Char
  chunks : List (List Char)
  chunk_summaries : List (List Char)
deriving DecidableEq

/-- Embedding of the join `" ".join(chunk_summaries)` (abstractive.py line 86). -/
def joinSpace (ls : List (List Char)) : List Char :=
  List.intercalate [' '] ls

/-- Embedding of `abstractive_summary` (abstractive.py lines 58-99) with the default
`max_chars=2000`, `overlap=200` of `_chunk_text`.  The HuggingFace generation
pipeline (`summarizer(...)` at lines 75-81 and 87-93) is the external
collaborator parameter `summarizer`; the second component of the result counts
how many collaborator calls were made (one per chunk in the loop, plus one
reduction call when there is more than one chunk summary). -/
def abstractive_summary (summarizer : List Char → List Char)
    (text : List Char) : AbstractiveSummaryResult × Nat :=
  let cleaned := basicCleanL text
  let chunks := chunk_text cleaned 2000 200
  let chunk_summaries := chunks.map summarizer
  if chunk_summaries.length = 1 then
    (⟨chunk_summaries.getD 0 [], chunks, chunk_summaries⟩, chunks.length)
  else
    let combined := joinSpace chunk_summaries
    (⟨summarizer combined, chunks, chunk_summaries⟩, chunks.length + 1)

/-- Modelled from the spec: tokenization used by the external `rouge_score`
collaborator (spec section 6, "n-gram/longest-common-subsequence overlap
metric family"); splitting on spaces, dropping empty tokens.  The first
argument accumulates the reversed current word. -/
def tokenizeAux : List Char → List Char → List String
  | acc, [] => if acc.isEmpty then [] else [String.mk acc.reverse]
  | acc, c :: cs =>
    if c = ' ' then
      if acc.isEmpty then tokenizeAux [] cs
      else String.mk acc.reverse :: tokenizeAux [] cs
    else tokenizeAux (c :: acc) cs

/-- Modelled from the spec: space-separated tokens of a string. -/
def tokenize (s : String) : List String :=
  tokenizeAux [] s.data

/-- Modelled from the spec: the list of `n`-grams of a token list. -/
def ngramsOf (n : Nat) (toks : List String) : List (List String) :=
  (List.range (toks.length + 1 - n)).map (fun i => (toks.drop i).take n)

/-- A precision / recall / f-measure triple as returned per metric by the
external `rouge_score` collaborator (evaluation.py lines 26-29). -/
structure ScoreTriple where
  precision : ℚ
  recall_ : ℚ
  fmeasure : ℚ
deriving DecidableEq

/-- Modelled from the spec: clipped n-gram overlap count — for each distinct
gram, the smaller of its two occurrence counts. -/
def overlapCount (ref cand : List (List String)) : Nat :=
  (ref.dedup.map (fun g => min (ref.count g) (cand.count g))).sum

/-- Division with the 0-denominator convention of overlap metrics
(no grams means zero precision/recall, not an error). -/
def safeDiv (a : ℚ) (b : Nat) : ℚ :=
  if b = 0 then 0 else a / (b : ℚ)

/-- Modelled from the spec: harmonic f-measure of precision and recall. -/
def fmeasureOf (p r : ℚ) : ℚ :=
  if p + r = 0 then 0 else 2 * p * r / (p + r)

/-- Modelled from the spec: the precision/recall/f triple from an overlap
count `ov`, a candidate gram count `nc` and a reference gram count `nr`. -/
def tripleOf (ov nc nr : Nat) : ScoreTriple :=
  ⟨safeDiv (ov : ℚ) nc, safeDiv (ov : ℚ) nr,
    fmeasureOf (safeDiv (ov : ℚ) nc) (safeDiv (ov : ℚ) nr)⟩

/-- Modelled from the spec: ROUGE-N of a reference/candidate pair. -/
def rougeN (n : Nat) (ref cand : String) : ScoreTriple :=
  let rg := ngramsOf n (tokenize ref)
  let cg := ngramsOf n (tokenize cand)
  tripleOf (overlapCount rg cg) cg.length rg.length

/-- Modelled from the spec: longest common subsequence length of two token
lists, with fuel `|a| + |b|` (each recursive step shortens the combined
length by one, so this fuel always suffices). -/
def lcsAux : Nat → List String → List String → Nat
  | 0, _, _ => 0
  | _ + 1, [], _ => 0
  | _ + 1, _ :: _, [] => 0
  | fuel + 1, a :: as, b :: bs =>
    if a = b then 1 + lcsAux fuel as bs
    else max (lcsAux fuel (a :: as) bs) (lcsAux fuel as (b :: bs))

/-- Modelled from the spec: LCS length of two token lists. -/
def lcsLen (a b : List String) : Nat :=
  lcsAux (a.length + b.length) a b

/-- Modelled from the spec: ROUGE-L of a reference/candidate pair. -/
def rougeL (ref cand : String) : ScoreTriple :=
  let rt := tokenize ref
  let ct := tokenize cand
  tripleOf (lcsLen rt ct) ct.length rt.length

/-- The per-metric score dictionary (evaluation.py lines 26-30). -/
structure RougeScores where
  rouge1 : ScoreTriple
  rouge2 : ScoreTriple
  rougeLsum : ScoreTriple
deriving DecidableEq

/-- Modelled from the spec: `scorer.score(ref, cand)` of the external
`rouge_score` collaborator (evaluation.py line 34), over the three metrics
`rouge1`, `rouge2`, `rougeL`. -/
def scorePair (ref cand : String) : RougeScores :=
  ⟨rougeN 1 ref cand, rougeN 2 ref cand, rougeL ref cand⟩

/-- Field-wise accumulation `agg_scores[key][f] += scores[key].f`
(evaluation.py lines 35-38). -/
def addTriple (a b : ScoreTriple) : ScoreTriple :=
  ⟨a.precision + b.precision, a.recall_ + b.recall_, a.fmeasure + b.fmeasure⟩

/-- Field-wise accumulation over the three metrics. -/
def addScores (a b : RougeScores) : RougeScores :=
  ⟨addTriple a.rouge1 b.rouge1, addTriple a.rouge2 b.rouge2,
    addTriple a.rougeLsum b.rougeLsum⟩

/-- The all-zero accumulator (evaluation.py lines 26-30). -/
def zeroScores : RougeScores :=
  ⟨⟨0, 0, 0⟩, ⟨0, 0, 0⟩, ⟨0, 0, 0⟩⟩

/-- Field-wise division `agg_scores[key][f] /= n` (evaluation.py lines 40-43). -/
def divTriple (a : ScoreTriple) (n : ℚ) : ScoreTriple :=
  ⟨a.precision / n, a.recall_ / n, a.fmeasure / n⟩

/-- Field-wise division over the three metrics. -/
def divScores (a : RougeScores) (n : ℚ) : RougeScores :=
  ⟨divTriple a.rouge1 n, divTriple a.rouge2 n, divTriple a.rougeLsum n⟩

/-- Embedding of `compute_rouge` (evaluation.py lines 8-45).  Fallible code is embedded in
`Except`: the explicit `ValueError` on a length mismatch (line 19), and the
`ZeroDivisionError` Python raises at lines 41-43 when the batch is empty
(`n = 0`), placed after the (then empty) accumulation loop exactly as the
division occurs in the source. -/
def compute_rouge (references candidates : List String) :
    Except String RougeScores :=
  if references.length ≠ candidates.length then
    Except.error "references and candidates must have the same length."
  else
    let n := references.length
    let agg := (references.zip candidates).foldl
      (fun acc p => addScores acc (scorePair p.1 p.2)) zeroScores
    if n = 0 then Except.error "ZeroDivisionError: float division by zero"
    else Except.ok (divScores agg (n : ℚ))

/-- Concrete stand-in for the external sentence splitter: always two
sentences.  Used only to instantiate witnesses. -/
def stubSplit2 : String → List String := fun _ => ["A.", "B."]

/-- Concrete stand-in for the external splitter that finds no sentences. -/
def stubSplit0 : String → List String := fun _ => []

/-- Concrete stand-in for an external scoring collaborator: scores 1 and 2. -/
def stubScore12 : List String → List ℚ := fun _ => [1, 2]

/-- Concrete embedding matrix used to instantiate witnesses: rows (3,4) and
(4,3). -/
def embWitness : Fin 2 → Fin 2 → ℚ :=
  ![![3, 4], ![4, 3]]

/-- The Euclidean norms of the rows of `embWitness`: both 5. -/
def nrmWitness : Fin 2 → ℚ := fun _ => 5

/-- Strict ascending check on a list of indices (boolean form of
`List.Pairwise` with `<`, used to keep claim statements binder-free). -/
def strictAsc : List Nat → Bool
  | a :: b :: rest => decide (a < b) && strictAsc (b :: rest)
  | _ => true

/-- Boolean check that a character list has no two adjacent whitespace
characters. -/
def noAdjSpaces : List Char → Bool
  | a :: b :: rest => !(isPySpace a && isPySpace b) && noAdjSpaces (b :: rest)
  | _ => true

/-- Equal-length bundle for the three list components of an extractive
result. -/
def lensEq (r : ExtractiveSummaryResult) (m : Nat) : Prop :=
  r.indices.length = m ∧ r.scores.length = m ∧ r.selected_sentences.length = m

instance (r : ExtractiveSummaryResult) (m : Nat) : Decidable (lensEq r m) := by
  unfold lensEq; exact inferInstance

/-- Concrete stand-in for the external generation pipeline: constant
summary.  Used only to instantiate witnesses. -/
def stubSummarizer : List Char → List Char := fun _ => ['S']

instance : DecidableEq (Except String RougeScores) := fun a b =>
  match a, b with
  | Except.error x, Except.error y =>
    if h : x = y then Decidable.isTrue (by rw [h])
    else Decidable.isFalse (fun hc => by cases hc; exact h rfl)
  | Except.ok x, Except.ok y =>
    if h : x = y then Decidable.isTrue (by rw [h])
    else Decidable.isFalse (fun hc => by cases hc; exact h rfl)
  | Except.error _, Except.ok _ => Decidable.isFalse (fun hc => by cases hc)
  | Except.ok _, Except.error _ => Decidable.isFalse (fun hc => by cases hc)

/-! ### Lemmas about the text normalizer -/

theorem collapseAux_nil (b : Bool) : collapseAux b [] = [] := rfl

theorem collapseAux_cons_space_true {x : Char} (hx : isPySpace x = true)
    (xs : List Char) : collapseAux true (x :: xs) = collapseAux true xs := by
  simp [collapseAux, hx]

theorem collapseAux_cons_space_false {x : Char} (hx : isPySpace x = true)
    (xs : List Char) :
    collapseAux false (x :: xs) = ' ' :: collapseAux true xs := by
  simp [collapseAux, hx]

theorem collapseAux_cons_nonspace {x : Char} (hx : isPySpace x = false)
    (b : Bool) (xs : List Char) :
    collapseAux b (x :: xs) = x :: collapseAux false xs := by
  simp [collapseAux, hx]

theorem collapseAux_head_not_space :
    ∀ cs (c : Char), (collapseAux true cs).head? = some c → isPySpace c = false := by
  intro cs
  induction cs with
  | nil => intro c h; simp [collapseAux] at h
  | cons x xs ih =>
    intro c h
    cases hx : isPySpace x with
    | true =>
      rw [collapseAux_cons_space_true hx] at h
      exact ih c h
    | false =>
      rw [collapseAux_cons_nonspace hx] at h
      simp only [List.head?_cons, Option.some.injEq] at h
      subst h
      exact hx

theorem mem_collapseAux :
    ∀ b l (c : Char), c ∈ collapseAux b l → c = ' ' ∨ c ∈ l := by
  intro b l
  induction l generalizing b with
  | nil => intro c h; simp [collapseAux] at h
  | cons x xs ih =>
    intro c h
    cases hx : isPySpace x with
    | true =>
      cases b with
      | true =>
        rw [collapseAux_cons_space_true hx] at h
        rcases ih true c h with h' | h'
        · exact Or.inl h'
        · exact Or.inr (List.mem_cons_of_mem _ h')
      | false =>
        rw [collapseAux_cons_space_false hx] at h
        rcases List.mem_cons.mp h with rfl | h'
        · exact Or.inl rfl
        · rcases ih true c h' with h'' | h''
          · exact Or.inl h''
          · exact Or.inr (List.mem_cons_of_mem _ h'')
    | false =>
      rw [collapseAux_cons_nonspace hx] at h
      rcases List.mem_cons.mp h with rfl | h'
      · exact Or.inr (List.mem_cons_self _ _)
      · rcases ih false c h' with h'' | h''
        · exact Or.inl h''
        · exact Or.inr (List.mem_cons_of_mem _ h'')

theorem space_mem_collapseAux :
    ∀ b l (c : Char), c ∈ collapseAux b l → isPySpace c = true → c = ' ' := by
  intro b l
  induction l generalizing b with
  | nil => intro c h; simp [collapseAux] at h
  | cons x xs ih =>
    intro c h hsp
    cases hx : isPySpace x with
    | true =>
      cases b with
      | true =>
        rw [collapseAux_cons_space_true hx] at h
        exact ih true c h hsp
      | false =>
        rw [collapseAux_cons_space_false hx] at h
        rcases List.mem_cons.mp h with rfl | h'
        · rfl
        · exact ih true c h' hsp
    | false =>
      rw [collapseAux_cons_nonspace hx] at h
      rcases List.mem_cons.mp h with rfl | h'
      · rw [hsp] at hx; exact absurd hx (by simp)
      · exact ih false c h' hsp

theorem noAdjSpaces_cons (y : Char) (X : List Char)
    (h : noAdjSpaces X = true)
    (h2 : ∀ x, X.head? = some x → (isPySpace y && isPySpace x) = false) :
    noAdjSpaces (y :: X) = true := by
  cases X with
  | nil => rfl
  | cons x rest =>
    rw [noAdjSpaces, Bool.and_eq_true]
    exact ⟨by simp [h2 x rfl], h⟩

theorem noAdjSpaces_collapseAux : ∀ b l, noAdjSpaces (collapseAux b l) = true := by
  intro b l
  induction l generalizing b with
  | nil => rfl
  | cons x xs ih =>
    cases hx : isPySpace x with
    | true =>
      cases b with
      | true => rw [collapseAux_cons_space_true hx]; exact ih true
      | false =>
        rw [collapseAux_cons_space_false hx]
        refine noAdjSpaces_cons _ _ (ih true) ?_
        intro c hc
        rw [collapseAux_head_not_space xs c hc]
        simp
    | false =>
      rw [collapseAux_cons_nonspace hx]
      refine noAdjSpaces_cons _ _ (ih false) ?_
      intro c _
      rw [hx]
      simp

theorem noAdjSpaces_append_left {a b : List Char}
    (h : noAdjSpaces (a ++ b) = true) : noAdjSpaces a = true := by
  induction a with
  | nil => rfl
  | cons x xs ih =>
    cases xs with
    | nil => rfl
    | cons y rest =>
      rw [List.cons_append, List.cons_append, noAdjSpaces, Bool.and_eq_true] at h
      rw [noAdjSpaces, Bool.and_eq_true]
      exact ⟨h.1, ih (by simpa using h.2)⟩

theorem noAdjSpaces_append_right {a b : List Char}
    (h : noAdjSpaces (a ++ b) = true) : noAdjSpaces b = true := by
  induction a with
  | nil => simpa using h
  | cons x xs ih =>
    refine ih ?_
    rw [List.cons_append] at h
    cases hxs : xs ++ b with
    | nil => rfl
    | cons y rest =>
      rw [hxs, noAdjSpaces, Bool.and_eq_true] at h
      exact h.2

theorem noAdjSpaces_prefix {a b : List Char} (h : a <+: b)
    (hb : noAdjSpaces b = true) : noAdjSpaces a = true := by
  rcases h with ⟨t, rfl⟩
  exact noAdjSpaces_append_left hb

theorem noAdjSpaces_suffix {a b : List Char} (h : a <:+ b)
    (hb : noAdjSpaces b = true) : noAdjSpaces a = true := by
  rcases h with ⟨t, rfl⟩
  exact noAdjSpaces_append_right hb

theorem stripChars_infix_self (l : List Char) : stripChars l <:+: l := by
  unfold stripChars
  exact List.IsInfix.trans
    (List.IsPrefix.isInfix (List.rdropWhile_prefix _ _))
    (List.IsSuffix.isInfix (List.dropWhile_suffix _))

theorem mem_stripChars {c : Char} {l : List Char} (h : c ∈ stripChars l) :
    c ∈ l :=
  (stripChars_infix_self l).subset h

theorem noAdjSpaces_stripChars {l : List Char} (h : noAdjSpaces l = true) :
    noAdjSpaces (stripChars l) = true := by
  unfold stripChars
  exact noAdjSpaces_prefix (List.rdropWhile_prefix _ _)
    (noAdjSpaces_suffix (List.dropWhile_suffix _) h)

theorem stripChars_head_not_space {l : List Char} {c : Char}
    (h : (stripChars l).head? = some c) : isPySpace c = false := by
  unfold stripChars at h
  have hpre := List.rdropWhile_prefix isPySpace (l.dropWhile isPySpace)
  have h0 := List.head?_dropWhile_not isPySpace l
  rcases hpre with ⟨t, ht⟩
  cases hd : List.rdropWhile isPySpace (l.dropWhile isPySpace) with
  | nil => rw [hd] at h; simp at h
  | cons y ys =>
    rw [hd] at h ht
    simp only [List.head?_cons, Option.some.injEq] at h
    subst h
    rw [← ht] at h0
    simpa using h0

theorem stripChars_getLast_not_space {l : List Char} {c : Char}
    (h : (stripChars l).getLast? = some c) : isPySpace c = false := by
  unfold stripChars at h
  cases hd : List.rdropWhile isPySpace (l.dropWhile isPySpace) with
  | nil => rw [hd] at h; simp at h
  | cons y ys =>
    have hne : List.rdropWhile isPySpace (l.dropWhile isPySpace) ≠ [] := by
      rw [hd]; simp
    have := List.rdropWhile_last_not isPySpace (l.dropWhile isPySpace) hne
    rw [List.getLast?_eq_getLast _ hne] at h
    rw [Option.some.injEq] at h
    subst h
    simpa using this

theorem mem_basicCleanL {c : Char} {l : List Char} (h : c ∈ basicCleanL l) :
    c = ' ' ∨ c ∈ l.map replaceCtrl := by
  unfold basicCleanL normalize_whitespace at h
  exact mem_collapseAux false _ c (mem_stripChars h)

theorem isCtrl_of_mem_basicCleanL {c : Char} {l : List Char}
    (h : c ∈ basicCleanL l) : isCtrl c = false := by
  rcases mem_basicCleanL h with rfl | h'
  · decide
  · rcases List.mem_map.mp h' with ⟨x, _, rfl⟩
    unfold replaceCtrl
    cases hx : isCtrl x with
    | true => rw [if_pos rfl]; decide
    | false => rw [if_neg (by decide)]; exact hx

theorem space_eq_of_mem_basicCleanL {c : Char} {l : List Char}
    (h : c ∈ basicCleanL l) (hsp : isPySpace c = true) : c = ' ' := by
  unfold basicCleanL normalize_whitespace at h
  exact space_mem_collapseAux false _ c (mem_stripChars h) hsp

theorem noAdjSpaces_basicCleanL (l : List Char) :
    noAdjSpaces (basicCleanL l) = true := by
  unfold basicCleanL normalize_whitespace
  exact noAdjSpaces_stripChars (noAdjSpaces_collapseAux false _)

theorem collapseAux_all_space_true {l : List Char}
    (h : ∀ c ∈ l, isPySpace c = true) : collapseAux true l = [] := by
  induction l with
  | nil => rfl
  | cons x xs ih =>
    rw [collapseAux_cons_space_true (h x (List.mem_cons_self _ _))]
    exact ih (fun c hc => h c (List.mem_cons_of_mem _ hc))

theorem basicCleanL_all_space {l : List Char}
    (h : ∀ c ∈ l, isPySpace c = true) : basicCleanL l = [] := by
  have hmap : ∀ c ∈ l.map replaceCtrl, isPySpace c = true := by
    intro c hc
    rcases List.mem_map.mp hc with ⟨x, hx, rfl⟩
    unfold replaceCtrl
    cases hcx : isCtrl x with
    | true => rw [if_pos rfl]; decide
    | false => rw [if_neg (by decide)]; exact h x hx
  unfold basicCleanL normalize_whitespace
  cases hl : l.map replaceCtrl with
  | nil => rfl
  | cons x xs =>
    rw [hl] at hmap
    have hx : isPySpace x = true := hmap x (List.mem_cons_self _ _)
    have hxs : ∀ c ∈ xs, isPySpace c = true :=
      fun c hc => hmap c (List.mem_cons_of_mem _ hc)
    rw [collapseAux_cons_space_false hx, collapseAux_all_space_true hxs]
    decide

/-! ### Lemmas about the ranking and selection pipeline -/

theorem argsortDesc_perm (scores : List ℚ) :
    List.Perm (argsortDesc scores) (List.range scores.length) :=
  List.perm_insertionSort _ _

theorem argsortDesc_length (scores : List ℚ) :
    (argsortDesc scores).length = scores.length := by
  simpa using (argsortDesc_perm scores).length_eq

theorem argsortDesc_nodup (scores : List ℚ) : (argsortDesc scores).Nodup :=
  ((argsortDesc_perm scores).nodup_iff).mpr (List.nodup_range _)

theorem argsortDesc_mem {scores : List ℚ} {i : Nat}
    (h : i ∈ argsortDesc scores) : i < scores.length := by
  have := (argsortDesc_perm scores).mem_iff.mp h
  simpa using this

theorem pySliceTo_sublist (k : Int) (xs : List α) :
    List.Sublist (pySliceTo k xs) xs := by
  unfold pySliceTo
  split <;> exact List.take_sublist _ _

theorem pySliceTo_length (k : Int) (xs : List α) :
    (pySliceTo k xs).length =
      if 0 ≤ k then min k.toNat xs.length else xs.length - (-k).toNat := by
  unfold pySliceTo
  split <;> simp [List.length_take]

theorem pySortNat_perm (xs : List Nat) : List.Perm (pySortNat xs) xs :=
  List.perm_insertionSort _ _

theorem pySortNat_sorted (xs : List Nat) :
    List.Sorted (· ≤ ·) (pySortNat xs) :=
  List.sorted_insertionSort _ _

theorem pySortNat_strict {xs : List Nat} (h : xs.Nodup) :
    List.Pairwise (· < ·) (pySortNat xs) := by
  have hs : List.Pairwise (· ≤ ·) (pySortNat xs) := pySortNat_sorted xs
  have hn : (pySortNat xs).Nodup := (pySortNat_perm xs).nodup_iff.mpr h
  exact (hs.and hn).imp (fun h' => lt_of_le_of_ne h'.1 h'.2)

theorem selection_strict (scores : List ℚ) (k : Int) :
    List.Pairwise (· < ·) (pySortNat (pySliceTo k (argsortDesc scores))) :=
  pySortNat_strict ((pySliceTo_sublist k _).nodup (argsortDesc_nodup scores))

theorem selection_mem {scores : List ℚ} {k : Int} {i : Nat}
    (h : i ∈ pySortNat (pySliceTo k (argsortDesc scores))) :
    i < scores.length :=
  argsortDesc_mem ((pySliceTo_sublist k _).subset ((pySortNat_perm _).mem_iff.mp h))

theorem selection_length (scores : List ℚ) (k : Int) :
    (pySortNat (pySliceTo k (argsortDesc scores))).length =
      if 0 ≤ k then min k.toNat scores.length
      else scores.length - (-k).toNat := by
  rw [(pySortNat_perm _).length_eq, pySliceTo_length, argsortDesc_length]

theorem textrank_eq_centroid (split : String → List String)
    (p : List String → List ℚ) (text : String) (k : Int) :
    textrank_extractive_summary split p text k =
      centroid_extractive_summary split p text k := rfl

theorem centroid_apply (split : String → List String)
    (cs : List String → List ℚ) (text : String) (k : Int)
    (h : split (basic_clean text) ≠ []) :
    centroid_extractive_summary split cs text k =
      { summary := String.intercalate " "
          ((pySortNat (pySliceTo (min k ((split (basic_clean text)).length : Int))
              (argsortDesc (cs (split (basic_clean text)))))).map
            (fun i => (split (basic_clean text)).getD i ""))
        selected_sentences :=
          (pySortNat (pySliceTo (min k ((split (basic_clean text)).length : Int))
              (argsortDesc (cs (split (basic_clean text)))))).map
            (fun i => (split (basic_clean text)).getD i "")
        indices := pySortNat (pySliceTo (min k ((split (basic_clean text)).length : Int))
              (argsortDesc (cs (split (basic_clean text)))))
        scores := (pySortNat (pySliceTo (min k ((split (basic_clean text)).length : Int))
              (argsortDesc (cs (split (basic_clean text)))))).map
            (fun i => (cs (split (basic_clean text))).getD i 0) } := by
  simp only [centroid_extractive_summary]
  rw [if_neg (by simpa [List.isEmpty_iff] using h)]

theorem centroid_empty_split (split : String → List String)
    (cs : List String → List ℚ) (text : String) (k : Int)
    (h : split (basic_clean text) = []) :
    centroid_extractive_summary split cs text k = emptyResult := by
  simp only [centroid_extractive_summary]
  rw [if_pos (by simp [List.isEmpty_iff, h])]

theorem pySliceTo_zero (xs : List α) : pySliceTo 0 xs = [] := by
  unfold pySliceTo
  simp

theorem pySortNat_nil : pySortNat [] = [] := rfl

theorem centroid_k_zero (split : String → List String)
    (cs : List String → List ℚ) (text : String) :
    centroid_extractive_summary split cs text 0 = emptyResult := by
  by_cases h : split (basic_clean text) = []
  · exact centroid_empty_split _ _ _ _ h
  · rw [centroid_apply _ _ _ _ h]
    have h0 : min (0 : Int) (((split (basic_clean text)).length : Int)) = 0 :=
      min_eq_left (Int.natCast_nonneg _)
    rw [h0, pySliceTo_zero, pySortNat_nil]
    rfl

theorem centroid_lengths (split : String → List String)
    (cs : List String → List ℚ) (text : String) (k : Int)
    (hcs : (cs (split (basic_clean text))).length = (split (basic_clean text)).length)
    (h : split (basic_clean text) ≠ []) :
    lensEq (centroid_extractive_summary split cs text k)
      (if 0 ≤ min k ((split (basic_clean text)).length : Int)
       then min (min k ((split (basic_clean text)).length : Int)).toNat
         (split (basic_clean text)).length
       else (split (basic_clean text)).length -
         (-(min k ((split (basic_clean text)).length : Int))).toNat) := by
  rw [centroid_apply _ _ _ _ h]
  unfold lensEq
  simp only [List.length_map]
  rw [selection_length, hcs]
  exact ⟨rfl, rfl, rfl⟩

/-! ### Claim theorems -/

/-- C5: `basic_clean` replaces every ASCII control character in
0x00-0x08, 0x0B-0x0C, 0x0E-0x1F, 0x7F with a space, collapses every
whitespace run (replacements included) to a single ASCII space, trims
leading and trailing whitespace, and is total over strings with
`basic_clean "" = ""`: the output of `basic_clean` contains no control
character, its only whitespace character is the single ASCII space, no two
adjacent characters are both whitespace, and it neither starts nor ends with
whitespace. -/
theorem claim_c5_basic_clean_normalizes (s : String) :
    basic_clean "" = "" ∧
    (basic_clean s).data.all (fun c => !isCtrl c) = true ∧
    (basic_clean s).data.all (fun c => !isPySpace c || c == ' ') = true ∧
    noAdjSpaces (basic_clean s).data = true ∧
    (basic_clean s).data.head?.all (fun c => !isPySpace c) = true ∧
    (basic_clean s).data.getLast?.all (fun c => !isPySpace c) = true := by
  refine ⟨rfl, ?_, ?_, ?_, ?_, ?_⟩
  · rw [List.all_eq_true]
    intro c hc
    have hctl : isCtrl c = false := isCtrl_of_mem_basicCleanL (l := s.data) hc
    rw [hctl]
    rfl
  · rw [List.all_eq_true]
    intro c hc
    cases hsp : isPySpace c with
    | false => rfl
    | true =>
      have hsp' : c = ' ' := space_eq_of_mem_basicCleanL (l := s.data) hc hsp
      subst hsp'
      rfl
  · exact noAdjSpaces_basicCleanL s.data
  · show ((basicCleanL s.data).head?.all fun c => !isPySpace c) = true
    cases hh : (basicCleanL s.data).head? with
    | none => rfl
    | some c =>
      unfold basicCleanL normalize_whitespace at hh
      have := stripChars_head_not_space hh
      show (!isPySpace c) = true
      rw [this]
      rfl
  · show ((basicCleanL s.data).getLast?.all fun c => !isPySpace c) = true
    cases hh : (basicCleanL s.data).getLast? with
    | none => rfl
    | some c =>
      unfold basicCleanL normalize_whitespace at hh
      have := stripChars_getLast_not_space hh
      show (!isPySpace c) = true
      rw [this]
      rfl

/-- C6: for input that is whitespace-only (or empty), `basic_clean` yields the
empty string, and — given the spec's splitter contract that empty input splits
into no sentences — both extractive summarizers return the well-formed empty
result instead of raising. -/
theorem claim_c6_degenerate_input_empty_result (split : String → List String)
    (cs prs : List String → List ℚ) (text : String) (k : Int)
    (hsplit : split "" = [])
    (hws : text.data.all isPySpace = true) :
    basic_clean text = "" ∧
    centroid_extractive_summary split cs text k = emptyResult ∧
    textrank_extractive_summary split prs text k = emptyResult := by
  have hclean : basic_clean text = "" := by
    unfold basic_clean
    rw [basicCleanL_all_space (by simpa [List.all_eq_true] using hws)]
  refine ⟨hclean, ?_, ?_⟩
  · exact centroid_empty_split _ _ _ _ (by rw [hclean, hsplit])
  · rw [textrank_eq_centroid]
    exact centroid_empty_split _ _ _ _ (by rw [hclean, hsplit])

/-- C6 witness: a whitespace-only input with a splitter honoring the contract
yields empty results. -/
theorem claim_c6_witness :
    basic_clean " " = "" ∧
    centroid_extractive_summary stubSplit0 stubScore12 " " 3 = emptyResult ∧
    textrank_extractive_summary stubSplit0 stubScore12 " " 3 = emptyResult :=
  claim_c6_degenerate_input_empty_result stubSplit0 stubScore12 stubScore12
    " " 3 rfl (by decide)

/-- C1 (amended): with one score per sentence, both extractive summarizers
return indices/scores/selected_sentences of length `min(k, N)` when `k ≥ 1`,
and the empty result when `k = 0` or `N = 0`; for `k < 0` (and `N > 0`)
Python's negative slice `ranked_idx[:k]` keeps the first `N - |k|` ranked
indices (clamped at zero), so the result is not empty whenever `|k| < N`. -/
theorem claim_c1_amended_lengths (split : String → List String)
    (cs prs : List String → List ℚ) (text : String) (k : Int)
    (hcs : (cs (split (basic_clean text))).length = (split (basic_clean text)).length)
    (hprs : (prs (split (basic_clean text))).length = (split (basic_clean text)).length) :
    (1 ≤ k →
      lensEq (centroid_extractive_summary split cs text k)
        (min k.toNat (split (basic_clean text)).length) ∧
      lensEq (textrank_extractive_summary split prs text k)
        (min k.toNat (split (basic_clean text)).length)) ∧
    ((k = 0 ∨ (split (basic_clean text)).length = 0) →
      centroid_extractive_summary split cs text k = emptyResult ∧
      textrank_extractive_summary split prs text k = emptyResult) ∧
    (k < 0 →
      lensEq (centroid_extractive_summary split cs text k)
        ((split (basic_clean text)).length - (-k).toNat) ∧
      lensEq (textrank_extractive_summary split prs text k)
        ((split (basic_clean text)).length - (-k).toNat)) := by
  refine ⟨?_, ?_, ?_⟩
  · intro hk
    by_cases h : split (basic_clean text) = []
    · rw [centroid_empty_split _ _ _ _ h, textrank_eq_centroid,
        centroid_empty_split _ _ _ _ h, h]
      constructor <;> simp [lensEq, emptyResult]
    · have h1 := centroid_lengths split cs text k hcs h
      have h2 := centroid_lengths split prs text k hprs h
      rw [textrank_eq_centroid]
      have harith :
          (if 0 ≤ min k ((split (basic_clean text)).length : Int)
           then min (min k ((split (basic_clean text)).length : Int)).toNat
             (split (basic_clean text)).length
           else (split (basic_clean text)).length -
             (-(min k ((split (basic_clean text)).length : Int))).toNat) =
            min k.toNat (split (basic_clean text)).length := by
        split <;> omega
      rw [harith] at h1 h2
      exact ⟨h1, h2⟩
  · intro hk
    rcases hk with rfl | hN
    · exact ⟨centroid_k_zero _ _ _, by
        rw [textrank_eq_centroid]; exact centroid_k_zero _ _ _⟩
    · have h : split (basic_clean text) = [] := List.length_eq_zero.mp hN
      exact ⟨centroid_empty_split _ _ _ _ h, by
        rw [textrank_eq_centroid]; exact centroid_empty_split _ _ _ _ h⟩
  · intro hk
    by_cases h : split (basic_clean text) = []
    · rw [centroid_empty_split _ _ _ _ h, textrank_eq_centroid,
        centroid_empty_split _ _ _ _ h, h]
      constructor <;> simp [lensEq, emptyResult]
    · have h1 := centroid_lengths split cs text k hcs h
      have h2 := centroid_lengths split prs text k hprs h
      rw [textrank_eq_centroid]
      have hne : (split (basic_clean text)).length ≠ 0 := by
        simpa using fun h' => h (List.length_eq_zero.mp h')
      have harith :
          (if 0 ≤ min k ((split (basic_clean text)).length : Int)
           then min (min k ((split (basic_clean text)).length : Int)).toNat
             (split (basic_clean text)).length
           else (split (basic_clean text)).length -
             (-(min k ((split (basic_clean text)).length : Int))).toNat) =
            (split (basic_clean text)).length - (-k).toNat := by
        split <;> omega
      rw [harith] at h1 h2
      exact ⟨h1, h2⟩

/-- C1 witness: the amended theorem instantiated at two stub sentences with
stub scores and `k = 1`. -/
theorem claim_c1_witness :
    lensEq (centroid_extractive_summary stubSplit2 stubScore12 "A. B." 1)
      (min (1 : Int).toNat (stubSplit2 (basic_clean "A. B.")).length) ∧
    lensEq (textrank_extractive_summary stubSplit2 stubScore12 "A. B." 1)
      (min (1 : Int).toNat (stubSplit2 (basic_clean "A. B.")).length) :=
  (claim_c1_amended_lengths stubSplit2 stubScore12 stubScore12 "A. B." 1
    rfl rfl).1 (by decide)

/-- C1 counterexample: the claim as stated demands an empty result for every
`k ≤ 0`, but with two sentences and `k = -1` both summarizers return one
index (Python's `ranked_idx[:-1]` drops only the last ranked index). -/
theorem claim_c1_counterexample :
    (-1 : Int) ≤ 0 ∧
    (centroid_extractive_summary stubSplit2 stubScore12 "A. B." (-1)).indices = [1] ∧
    (textrank_extractive_summary stubSplit2 stubScore12 "A. B." (-1)).indices = [1] ∧
    (centroid_extractive_summary stubSplit2 stubScore12 "A. B." (-1)).indices ≠ [] := by
  refine ⟨by decide, by decide, by decide, by decide⟩

theorem strictAsc_of_pairwise {l : List Nat}
    (h : List.Pairwise (· < ·) l) : strictAsc l = true := by
  induction l with
  | nil => rfl
  | cons a t ih =>
    cases t with
    | nil => rfl
    | cons b r =>
      rw [strictAsc, Bool.and_eq_true]
      rcases List.pairwise_cons.mp h with ⟨hall, ht⟩
      exact ⟨by simpa using hall b (List.mem_cons_self _ _), ih ht⟩

/-- C3: for a non-empty sentence list and `k ≥ 1`, both summarizers return
strictly ascending indices inside `0..N-1`, `selected_sentences` equal to the
original sentences restricted to those indices in ascending index order, and
`summary` equal to those sentences joined by a single ASCII space. -/
theorem claim_c3_document_order (split : String → List String)
    (cs prs : List String → List ℚ) (text : String) (k : Int)
    (_hk : 1 ≤ k)
    (hne : split (basic_clean text) ≠ [])
    (hcs : (cs (split (basic_clean text))).length = (split (basic_clean text)).length)
    (hprs : (prs (split (basic_clean text))).length = (split (basic_clean text)).length) :
    strictAsc (centroid_extractive_summary split cs text k).indices = true ∧
    (centroid_extractive_summary split cs text k).indices.all
      (fun i => decide (i < (split (basic_clean text)).length)) = true ∧
    (centroid_extractive_summary split cs text k).selected_sentences =
      (centroid_extractive_summary split cs text k).indices.map
        (fun i => (split (basic_clean text)).getD i "") ∧
    (centroid_extractive_summary split cs text k).summary =
      String.intercalate " "
        (centroid_extractive_summary split cs text k).selected_sentences ∧
    strictAsc (textrank_extractive_summary split prs text k).indices = true ∧
    (textrank_extractive_summary split prs text k).indices.all
      (fun i => decide (i < (split (basic_clean text)).length)) = true ∧
    (textrank_extractive_summary split prs text k).selected_sentences =
      (textrank_extractive_summary split prs text k).indices.map
        (fun i => (split (basic_clean text)).getD i "") ∧
    (textrank_extractive_summary split prs text k).summary =
      String.intercalate " "
        (textrank_extractive_summary split prs text k).selected_sentences := by
  rw [textrank_eq_centroid, centroid_apply _ _ _ _ hne, centroid_apply _ _ _ _ hne]
  refine ⟨?_, ?_, rfl, rfl, ?_, ?_, rfl, rfl⟩
  · exact strictAsc_of_pairwise (selection_strict _ _)
  · rw [List.all_eq_true]
    intro i hi
    have := selection_mem hi
    rw [hcs] at this
    simpa using this
  · exact strictAsc_of_pairwise (selection_strict _ _)
  · rw [List.all_eq_true]
    intro i hi
    have := selection_mem hi
    rw [hprs] at this
    simpa using this

/-- C3 witness: the document-order properties at a concrete input. -/
theorem claim_c3_witness :
    strictAsc (centroid_extractive_summary stubSplit2 stubScore12 "A. B." 1).indices = true ∧
    (textrank_extractive_summary stubSplit2 stubScore12 "A. B." 1).summary =
      String.intercalate " "
        (textrank_extractive_summary stubSplit2 stubScore12 "A. B." 1).selected_sentences := by
  have h := claim_c3_document_order stubSplit2 stubScore12 stubScore12 "A. B." 1
    (by decide) (by decide) rfl rfl
  exact ⟨h.1, h.2.2.2.2.2.2.2⟩

/-! ### Lemmas about the similarity matrix -/

theorem normed_sq_sum_le_one {n d : Nat} (emb : Fin n → Fin d → ℚ)
    (nrm : Fin n → ℚ)
    (hnrm : ∀ i, 0 ≤ nrm i ∧ nrm i ^ 2 = ∑ t, emb i t ^ 2) (i : Fin n) :
    ∑ t, normedEmb emb nrm i t ^ 2 ≤ 1 := by
  unfold normedEmb
  rcases hnrm i with ⟨h0, hsq⟩
  have heps : (0 : ℚ) < epsQ := by norm_num [epsQ]
  have hpos : 0 < nrm i + epsQ := by linarith
  have hrw : ∑ t, (emb i t / (nrm i + epsQ)) ^ 2 =
      (∑ t, emb i t ^ 2) / (nrm i + epsQ) ^ 2 := by
    rw [Finset.sum_div]
    exact Finset.sum_congr rfl (fun t _ => div_pow _ _ _)
  rw [hrw, ← hsq, div_le_one (by positivity)]
  nlinarith

theorem build_similarity_matrix_symm {n d : Nat} (emb : Fin n → Fin d → ℚ)
    (nrm : Fin n → ℚ) (i j : Fin n) :
    build_similarity_matrix emb nrm i j = build_similarity_matrix emb nrm j i := by
  unfold build_similarity_matrix
  by_cases hij : i = j
  · rw [if_pos hij, if_pos hij.symm]
  · rw [if_neg hij, if_neg (Ne.symm hij)]
    exact Finset.sum_congr rfl (fun t _ => mul_comm _ _)

theorem build_similarity_matrix_bound {n d : Nat} (emb : Fin n → Fin d → ℚ)
    (nrm : Fin n → ℚ)
    (hnrm : ∀ i, 0 ≤ nrm i ∧ nrm i ^ 2 = ∑ t, emb i t ^ 2)
    (i j : Fin n) (hij : i ≠ j) :
    -1 ≤ build_similarity_matrix emb nrm i j ∧
      build_similarity_matrix emb nrm i j ≤ 1 := by
  have hsq : build_similarity_matrix emb nrm i j ^ 2 ≤ 1 := by
    unfold build_similarity_matrix
    rw [if_neg hij]
    refine le_trans (Finset.sum_mul_sq_le_sq_mul_sq Finset.univ
      (fun t => normedEmb emb nrm i t) (fun t => normedEmb emb nrm j t)) ?_
    have hi := normed_sq_sum_le_one emb nrm hnrm i
    have hj := normed_sq_sum_le_one emb nrm hnrm j
    have hin : 0 ≤ ∑ t, normedEmb emb nrm i t ^ 2 :=
      Finset.sum_nonneg (fun t _ => sq_nonneg _)
    have hjn : 0 ≤ ∑ t, normedEmb emb nrm j t ^ 2 :=
      Finset.sum_nonneg (fun t _ => sq_nonneg _)
    nlinarith
  have habs := abs_le.mp ((sq_le_one_iff_abs_le_one _).mp hsq)
  exact habs

/-- C4: the similarity matrix built by `_build_similarity_matrix` is
symmetric, has all diagonal entries forced to 0, and every off-diagonal entry
lies in [-1, 1]; `nrm` is characterized as the Euclidean norm of each
embedding row (`np.linalg.norm`). -/
theorem claim_c4_similarity_matrix {n d : Nat} (emb : Fin n → Fin d → ℚ)
    (nrm : Fin n → ℚ)
    (hnrm : ∀ i, 0 ≤ nrm i ∧ nrm i ^ 2 = ∑ t, emb i t ^ 2) :
    (∀ i j, build_similarity_matrix emb nrm i j =
      build_similarity_matrix emb nrm j i) ∧
    (∀ i, build_similarity_matrix emb nrm i i = 0) ∧
    (∀ i j, i ≠ j → -1 ≤ build_similarity_matrix emb nrm i j ∧
      build_similarity_matrix emb nrm i j ≤ 1) := by
  refine ⟨fun i j => build_similarity_matrix_symm emb nrm i j, ?_, ?_⟩
  · intro i
    unfold build_similarity_matrix
    rw [if_pos rfl]
  · exact fun i j hij => build_similarity_matrix_bound emb nrm hnrm i j hij

/-- C4 witness: the norm characterization holds for the concrete embedding
rows (3,4) and (4,3) with norms 5, and the matrix properties follow. -/
theorem claim_c4_witness :
    (0 ≤ nrmWitness 0 ∧ nrmWitness 0 ^ 2 = ∑ t, embWitness 0 t ^ 2) ∧
    build_similarity_matrix embWitness nrmWitness 0 1 =
      build_similarity_matrix embWitness nrmWitness 1 0 ∧
    build_similarity_matrix embWitness nrmWitness 0 0 = 0 ∧
    (-1 ≤ build_similarity_matrix embWitness nrmWitness 0 1 ∧
      build_similarity_matrix embWitness nrmWitness 0 1 ≤ 1) := by
  have hn : ∀ i, 0 ≤ nrmWitness i ∧ nrmWitness i ^ 2 = ∑ t, embWitness i t ^ 2 := by
    intro i
    fin_cases i <;> constructor <;>
      norm_num [nrmWitness, embWitness, Fin.sum_univ_two]
  have h := claim_c4_similarity_matrix embWitness nrmWitness hn
  exact ⟨hn 0, h.1 0 1, h.2.1 0, h.2.2 0 1 (by decide)⟩

/-! ### Chunking claims -/

/-- C8: for cleaned text shorter than the `max_chars` threshold (default
2000), `_chunk_text` returns exactly `[text]`, the summarizer makes exactly
one collaborator call, and the final summary is that single chunk summary. -/
theorem claim_c8_short_text_single_chunk (summarizer : List Char → List Char)
    (text : List Char) (h : (basicCleanL text).length < 2000) :
    chunk_text (basicCleanL text) 2000 200 = [basicCleanL text] ∧
    (abstractive_summary summarizer text).2 = 1 ∧
    (abstractive_summary summarizer text).1.chunks = [basicCleanL text] ∧
    (abstractive_summary summarizer text).1.summary =
      summarizer (basicCleanL text) := by
  have h' : (basicCleanL text).length ≤ 2000 := le_of_lt h
  have hch : chunk_text (basicCleanL text) 2000 200 = [basicCleanL text] := by
    unfold chunk_text
    rw [if_pos h']
  refine ⟨hch, ?_, ?_, ?_⟩ <;> simp [abstractive_summary, hch]

/-- C8 witness: the single-chunk behavior at a concrete short input. -/
theorem claim_c8_witness :
    chunk_text (basicCleanL ("hi").data) 2000 200 = [basicCleanL ("hi").data] ∧
    (abstractive_summary stubSummarizer ("hi").data).2 = 1 ∧
    (abstractive_summary stubSummarizer ("hi").data).1.summary =
      stubSummarizer (basicCleanL ("hi").data) :=
  have h := claim_c8_short_text_single_chunk stubSummarizer ("hi").data (by decide)
  ⟨h.1, h.2.1, h.2.2.2⟩

theorem chunkLoop_isSome (text : List Char) (max_chars overlap : Nat)
    (hov : overlap < max_chars) :
    ∀ fuel start, text.length < start + fuel →
      (chunkLoop text max_chars overlap fuel start).isSome = true := by
  intro fuel
  induction fuel with
  | zero =>
    intro start h
    simp only [chunkLoop]
    rw [if_neg (by omega)]
    rfl
  | succ f ih =>
    intro start h
    simp only [chunkLoop]
    by_cases hs : start < text.length
    · rw [if_pos hs]
      by_cases he : min text.length (start + max_chars) = text.length
      · rw [if_pos he]
        rfl
      · rw [if_neg he]
        have hres := ih (min text.length (start + max_chars) - overlap) (by omega)
        rcases Option.isSome_iff_exists.mp hres with ⟨v, hv⟩
        rw [hv]
        rfl
    · rw [if_neg hs]
      rfl

/-- C9: with `0 ≤ overlap < max_chars`, the chunking loop of `_chunk_text`
terminates on every input: fuel `len(text) + 1` is enough for the loop to
reach the end of the text, since every iteration that does not finish
advances `start` by `max_chars - overlap ≥ 1`. -/
theorem claim_c9_chunk_loop_terminates (text : List Char)
    (max_chars overlap : Nat) (hov : overlap < max_chars) :
    (chunkLoop text max_chars overlap (text.length + 1) 0).isSome = true :=
  chunkLoop_isSome text max_chars overlap hov (text.length + 1) 0 (by omega)

/-- C9 witness: loop termination at a concrete text and parameters. -/
theorem claim_c9_witness :
    (chunkLoop ("abcdef").data 2 1 (("abcdef").data.length + 1) 0).isSome = true :=
  claim_c9_chunk_loop_terminates ("abcdef").data 2 1 (by decide)

/-! ### ROUGE claims -/

theorem foldl_addScores_proj (f : RougeScores → ℚ)
    (hf : ∀ a b, f (addScores a b) = f a + f b)
    (l : List (String × String)) :
    ∀ acc, f (l.foldl (fun a p => addScores a (scorePair p.1 p.2)) acc) =
      f acc + (l.map (fun p => f (scorePair p.1 p.2))).sum := by
  induction l with
  | nil => intro acc; simp
  | cons x xs ih =>
    intro acc
    simp only [List.foldl_cons, List.map_cons, List.sum_cons]
    rw [ih, hf]
    ring

theorem tripleOf_diag {m : Nat} (hm : m ≠ 0) :
    tripleOf m m m = ⟨1, 1, 1⟩ := by
  have hq : (m : ℚ) ≠ 0 := Nat.cast_ne_zero.mpr hm
  unfold tripleOf safeDiv fmeasureOf
  rw [if_neg hm, div_self hq]
  norm_num

theorem scorePair_identity_example :
    scorePair "the cat sat on the mat" "the cat sat on the mat" =
      ⟨⟨1, 1, 1⟩, ⟨1, 1, 1⟩, ⟨1, 1, 1⟩⟩ := by
  have e1 : rougeN 1 "the cat sat on the mat" "the cat sat on the mat" =
      tripleOf 6 6 6 := rfl
  have e2 : rougeN 2 "the cat sat on the mat" "the cat sat on the mat" =
      tripleOf 5 5 5 := rfl
  have eL : rougeL "the cat sat on the mat" "the cat sat on the mat" =
      tripleOf 6 6 6 := rfl
  unfold scorePair
  rw [e1, e2, eL, tripleOf_diag (by decide), tripleOf_diag (by decide)]

theorem mean_field (f : RougeScores → ℚ)
    (hf : ∀ a b, f (addScores a b) = f a + f b)
    (hz : f zeroScores = 0)
    (hdiv : ∀ a n, f (divScores a n) = f a / n)
    (l : List (String × String)) (n : ℚ) :
    f (divScores (l.foldl (fun acc p => addScores acc (scorePair p.1 p.2))
        zeroScores) n) =
      (l.map (fun p => f (scorePair p.1 p.2))).sum / n := by
  rw [hdiv, foldl_addScores_proj f hf l zeroScores, hz, zero_add]

/-- C7 (amended): `compute_rouge` raises exactly when the collections have
different lengths or when the (equal-length) batch is empty; for an
equal-length non-empty batch it returns, per metric, the arithmetic mean over
the batch of precision, recall and f-measure; the spec's identical
reference/candidate example scores precision = recall = f1 = 1.0 on all three
metrics. -/
theorem claim_c7_amended_rouge (references candidates : List String) :
    ((∃ e, compute_rouge references candidates = Except.error e) ↔
      (references.length ≠ candidates.length ∨ references.length = 0)) ∧
    (∀ r, references.length = candidates.length → references.length ≠ 0 →
      compute_rouge references candidates = Except.ok r →
      r.rouge1.precision = ((references.zip candidates).map
        (fun p => (scorePair p.1 p.2).rouge1.precision)).sum / references.length ∧
      r.rouge1.recall_ = ((references.zip candidates).map
        (fun p => (scorePair p.1 p.2).rouge1.recall_)).sum / references.length ∧
      r.rouge1.fmeasure = ((references.zip candidates).map
        (fun p => (scorePair p.1 p.2).rouge1.fmeasure)).sum / references.length ∧
      r.rouge2.precision = ((references.zip candidates).map
        (fun p => (scorePair p.1 p.2).rouge2.precision)).sum / references.length ∧
      r.rouge2.recall_ = ((references.zip candidates).map
        (fun p => (scorePair p.1 p.2).rouge2.recall_)).sum / references.length ∧
      r.rouge2.fmeasure = ((references.zip candidates).map
        (fun p => (scorePair p.1 p.2).rouge2.fmeasure)).sum / references.length ∧
      r.rougeLsum.precision = ((references.zip candidates).map
        (fun p => (scorePair p.1 p.2).rougeLsum.precision)).sum / references.length ∧
      r.rougeLsum.recall_ = ((references.zip candidates).map
        (fun p => (scorePair p.1 p.2).rougeLsum.recall_)).sum / references.length ∧
      r.rougeLsum.fmeasure = ((references.zip candidates).map
        (fun p => (scorePair p.1 p.2).rougeLsum.fmeasure)).sum / references.length) ∧
    compute_rouge ["the cat sat on the mat"] ["the cat sat on the mat"] =
      Except.ok ⟨⟨1, 1, 1⟩, ⟨1, 1, 1⟩, ⟨1, 1, 1⟩⟩ := by
  refine ⟨?_, ?_, ?_⟩
  · constructor
    · rintro ⟨e, he⟩
      by_cases hlen : references.length = candidates.length
      · by_cases hn : references.length = 0
        · exact Or.inr hn
        · exfalso
          simp only [compute_rouge] at he
          rw [if_neg (by simp [hlen]), if_neg hn] at he
          cases he
      · exact Or.inl hlen
    · rintro (hlen | hn)
      · exact ⟨_, by simp only [compute_rouge]; rw [if_pos hlen]⟩
      · by_cases hlen : references.length = candidates.length
        · exact ⟨_, by
            simp only [compute_rouge]
            rw [if_neg (by simp [hlen]), if_pos hn]⟩
        · exact ⟨_, by simp only [compute_rouge]; rw [if_pos hlen]⟩
  · intro r hlen hn hok
    simp only [compute_rouge] at hok
    rw [if_neg (by simp [hlen]), if_neg hn] at hok
    have hr : r = divScores ((references.zip candidates).foldl
        (fun acc p => addScores acc (scorePair p.1 p.2)) zeroScores)
        (references.length : ℚ) := by
      cases hok
      rfl
    subst hr
    exact ⟨mean_field (fun s => s.rouge1.precision) (fun a b => rfl) rfl
        (fun a n => rfl) _ _,
      mean_field (fun s => s.rouge1.recall_) (fun a b => rfl) rfl
        (fun a n => rfl) _ _,
      mean_field (fun s => s.rouge1.fmeasure) (fun a b => rfl) rfl
        (fun a n => rfl) _ _,
      mean_field (fun s => s.rouge2.precision) (fun a b => rfl) rfl
        (fun a n => rfl) _ _,
      mean_field (fun s => s.rouge2.recall_) (fun a b => rfl) rfl
        (fun a n => rfl) _ _,
      mean_field (fun s => s.rouge2.fmeasure) (fun a b => rfl) rfl
        (fun a n => rfl) _ _,
      mean_field (fun s => s.rougeLsum.precision) (fun a b => rfl) rfl
        (fun a n => rfl) _ _,
      mean_field (fun s => s.rougeLsum.recall_) (fun a b => rfl) rfl
        (fun a n => rfl) _ _,
      mean_field (fun s => s.rougeLsum.fmeasure) (fun a b => rfl) rfl
        (fun a n => rfl) _ _⟩
  · simp only [compute_rouge]
    rw [if_neg (by simp), if_neg (by simp)]
    have hz : (["the cat sat on the mat"].zip ["the cat sat on the mat"]) =
        [("the cat sat on the mat", "the cat sat on the mat")] := rfl
    rw [hz, List.foldl_cons, List.foldl_nil, scorePair_identity_example]
    norm_num [addScores, addTriple, zeroScores, divScores, divTriple]

/-- C7 witness: the identical reference/candidate example from the spec. -/
theorem claim_c7_witness :
    compute_rouge ["the cat sat on the mat"] ["the cat sat on the mat"] =
      Except.ok ⟨⟨1, 1, 1⟩, ⟨1, 1, 1⟩, ⟨1, 1, 1⟩⟩ :=
  (claim_c7_amended_rouge ["the cat sat on the mat"]
    ["the cat sat on the mat"]).2.2

/-- C7 counterexample: the claim's "raises if and only if the lengths differ"
fails — two empty collections have equal length, yet `compute_rouge` raises
(the division by `n = 0`). -/
theorem claim_c7_counterexample :
    (([] : List String)).length = (([] : List String)).length ∧
    (∃ e, compute_rouge [] [] = Except.error e) :=
  ⟨rfl, ⟨"ZeroDivisionError: float division by zero", rfl⟩⟩

/-- C10: calling `compute_rouge` with two empty collections passes the
length check and reaches the per-metric division by `n = 0`, so the call
fails with Python's `ZeroDivisionError` instead of returning a result. -/
theorem claim_c10_empty_batch_zero_division :
    compute_rouge [] [] =
      Except.error "ZeroDivisionError: float division by zero" := rfl
